import Mathlib

/-!
Verification of the job-tracker backend's ordered-collection move engine.

The definitions below are a shallow embedding of the service layer of the
job-tracker repository (`src/services/job-service.ts`, together with the
Drizzle schema `src/db/schema.ts` and the Zod validation schemas in
`src/schemas/job-application.ts`).  The database table `job_applications`
is modelled as a `List JobApplication`; SQL `WHERE`/`UPDATE` clauses become
`List.find?`/`List.map` with the same row predicates.  The `id` column is a
primary key in the schema, so per-row updates keyed by `id` coincide with
the per-row conditional maps used here on every reachable database state.
Timestamps (`createdAt`, `updatedAt`) and the joined `company` object are
not part of any property considered here and are omitted from the record.
-/

/-! ### Data model, operations and validation schemas -/

/-- The persisted status enumeration `status_enum` from `src/db/schema.ts`:
`['Applied', 'Interviewing', 'Offer', 'Rejected', 'Cancelled']`. -/
inductive ApplicationStatus : Type
  | Applied
  | Interviewing
  | Offer
  | Rejected
  | Cancelled
deriving DecidableEq, Repr

/-- A row of the `job_applications` table (Drizzle schema, `src/db/schema.ts`).
Nullable columns are `Option`; `orderIndex` is an `integer` column. -/
structure JobApplication : Type where
  id : Nat
  userId : Nat
  companyId : Option Nat
  companyName : String
  positionTitle : String
  status : ApplicationStatus
  interviewStage : Option String
  rejectionStage : Option String
  applicationDate : String
  salaryRange : Option String
  location : Option String
  notes : Option String
  orderIndex : Int
deriving DecidableEq, Repr

/-- The body of `PATCH /applications/:id/move` after validation
(`JobApplicationMove` in the shared types): target status, target order
index and the optionally requested stage labels.  The service applies
`?? null` to the stage fields, so `undefined` and `null` are collapsed
into `none` here. -/
structure MoveData : Type where
  status : ApplicationStatus
  orderIndex : Int
  interviewStage : Option String
  rejectionStage : Option String
deriving DecidableEq, Repr

/-- Embedding of `getApplicationById` (`job-service.ts`): a `SELECT` with
`WHERE id = applicationId AND user_id = userId LIMIT 1`. -/
def getApplicationById (applicationId userId : Nat)
    (db : List JobApplication) : Option JobApplication :=
  db.find? (fun a => a.id == applicationId && a.userId == userId)

/-- The stage-reconciliation branch of `moveApplication`: for status
`Interviewing` keep the requested interview stage and null the rejection
stage; for `Rejected` keep the requested rejection stage and null the
interview stage; otherwise null both.  Returns the pair
`(interviewStage, rejectionStage)`. -/
def reconcileStages (moveData : MoveData) : Option String × Option String :=
  if moveData.status = ApplicationStatus.Interviewing then
    (moveData.interviewStage, none)
  else if moveData.status = ApplicationStatus.Rejected then
    (none, moveData.rejectionStage)
  else
    (none, none)

/-- The final `UPDATE ... SET` of `moveApplication` applied to one row:
status, orderIndex and the two reconciled stage fields are written, every
other column is kept. -/
def retargetApp (moveData : MoveData) (a : JobApplication) : JobApplication :=
  { a with
    status := moveData.status
    orderIndex := moveData.orderIndex
    interviewStage := (reconcileStages moveData).1
    rejectionStage := (reconcileStages moveData).2 }

/-- Row predicate of the shift query in `moveApplication`:
`user_id = userId AND status = newStatus AND order_index >= moveData.orderIndex
AND id != applicationId`. -/
abbrev shiftCond (moveData : MoveData) (applicationId userId : Nat)
    (a : JobApplication) : Prop :=
  a.userId = userId ∧ a.status = moveData.status ∧
    moveData.orderIndex ≤ a.orderIndex ∧ a.id ≠ applicationId

/-- The per-row shift write: `SET order_index = order_index + 1`. -/
def bumpOrder (a : JobApplication) : JobApplication :=
  { a with orderIndex := a.orderIndex + 1 }

/-- Embedding of `moveApplication` (`job-service.ts`).  Fetch the
application by `(applicationId, userId)`; if absent return `none` and leave
the table untouched.  Otherwise, when the status changes, bump the order
index of every row of the destination `(userId, newStatus)` partition at or
above the requested index (excluding the moved row); finally write the new
status, order index and reconciled stage fields to the moved row.  The
returned record is the moved row produced by the final
`UPDATE ... RETURNING`. -/
def moveApplication (applicationId : Nat) (moveData : MoveData) (userId : Nat)
    (db : List JobApplication) : Option JobApplication × List JobApplication :=
  match getApplicationById applicationId userId db with
  | none => (none, db)
  | some application =>
    let db1 : List JobApplication :=
      if application.status ≠ moveData.status then
        db.map (fun a =>
          if shiftCond moveData applicationId userId a then bumpOrder a else a)
      else db
    let db2 : List JobApplication :=
      db1.map (fun a =>
        if a.id = applicationId ∧ a.userId = userId then
          retargetApp moveData a
        else a)
    (some (retargetApp moveData application), db2)

/-- Payload of `POST /applications` after validation (`JobApplicationCreate`
in the shared types); `none` for a nullable field means the caller omitted
it (`?? null` in the service).  `orderIndex` is optional: `none` means the
caller did not request an explicit index. -/
structure JobApplicationCreate : Type where
  companyId : Option Nat
  companyName : String
  positionTitle : String
  status : ApplicationStatus
  interviewStage : Option String
  rejectionStage : Option String
  applicationDate : String
  salaryRange : Option String
  location : Option String
  notes : Option String
  orderIndex : Option Int
deriving DecidableEq, Repr

/-- The `SELECT order_index ... ORDER BY order_index DESC LIMIT 1` of
`createApplication`: the maximum `orderIndex` of a list of rows, `none` on
the empty list.  (The column is `NOT NULL`, so the `?? -1` fallback of the
source is dead and not modelled.) -/
def maxOrderIn (l : List JobApplication) : Option Int :=
  l.foldr
    (fun a acc =>
      match acc with
      | none => some a.orderIndex
      | some m => some (max a.orderIndex m))
    none

/-- Embedding of `createApplication` (`job-service.ts`).  The new row's
`orderIndex` is the caller's explicit value if given, otherwise one past
the maximum of the `(userId, status)` partition, or `0` when that
partition is empty.  `newId` stands for the generated UUID primary key.
Returns the inserted row and the new table state. -/
def createApplication (applicationData : JobApplicationCreate) (userId : Nat)
    (newId : Nat) (db : List JobApplication) :
    JobApplication × List JobApplication :=
  let partition : List JobApplication :=
    db.filter (fun a => a.status == applicationData.status && a.userId == userId)
  let orderIndex : Int :=
    applicationData.orderIndex.getD
      (match maxOrderIn partition with
       | some m => m + 1
       | none => 0)
  let newApplication : JobApplication :=
    { id := newId
      userId := userId
      companyId := applicationData.companyId
      companyName := applicationData.companyName
      positionTitle := applicationData.positionTitle
      status := applicationData.status
      interviewStage := applicationData.interviewStage
      rejectionStage := applicationData.rejectionStage
      applicationDate := applicationData.applicationDate
      salaryRange := applicationData.salaryRange
      location := applicationData.location
      notes := applicationData.notes
      orderIndex := orderIndex }
  (newApplication, db ++ [newApplication])

/-- Payload of `PUT /applications/:id` (`JobApplicationUpdate` in the shared
types): every field optional; for nullable columns the outer `Option` is
presence of the key (`undefined`), the inner one is the stored value. -/
structure JobApplicationUpdate : Type where
  companyId : Option (Option Nat)
  companyName : Option String
  positionTitle : Option String
  status : Option ApplicationStatus
  interviewStage : Option (Option String)
  rejectionStage : Option (Option String)
  applicationDate : Option String
  salaryRange : Option (Option String)
  location : Option (Option String)
  notes : Option (Option String)
  orderIndex : Option Int
deriving DecidableEq, Repr

/-- The `updateData` assembly of `updateApplication`: each provided field
overwrites the stored one, absent fields are kept. -/
def applyUpdate (u : JobApplicationUpdate) (a : JobApplication) : JobApplication :=
  { a with
    companyId := u.companyId.getD a.companyId
    companyName := u.companyName.getD a.companyName
    positionTitle := u.positionTitle.getD a.positionTitle
    status := u.status.getD a.status
    interviewStage := u.interviewStage.getD a.interviewStage
    rejectionStage := u.rejectionStage.getD a.rejectionStage
    applicationDate := u.applicationDate.getD a.applicationDate
    salaryRange := u.salaryRange.getD a.salaryRange
    location := u.location.getD a.location
    notes := u.notes.getD a.notes
    orderIndex := u.orderIndex.getD a.orderIndex }

/-- Embedding of `updateApplication` (`job-service.ts`): fetch by
`(applicationId, userId)`; if absent return `none` without writing,
otherwise overwrite the provided fields on the matching row. -/
def updateApplication (applicationId : Nat) (u : JobApplicationUpdate)
    (userId : Nat) (db : List JobApplication) :
    Option JobApplication × List JobApplication :=
  match getApplicationById applicationId userId db with
  | none => (none, db)
  | some application =>
    (some (applyUpdate u application),
      db.map (fun a =>
        if a.id = applicationId ∧ a.userId = userId then applyUpdate u a else a))

/-- Combined per-row effect of a successful move: the moved row is
retargeted; on a status change, destination-partition rows at or above the
target index are bumped; every other row is untouched. -/
def moveStep (application : JobApplication) (moveData : MoveData)
    (applicationId userId : Nat) (a : JobApplication) : JobApplication :=
  if a.id = applicationId ∧ a.userId = userId then
    retargetApp moveData a
  else if application.status ≠ moveData.status ∧
      shiftCond moveData applicationId userId a then
    bumpOrder a
  else a

/-- Stage exclusivity for one record: a non-null interview stage forces
status `Interviewing` and a non-null rejection stage forces `Rejected`. -/
def StageOk (a : JobApplication) : Prop :=
  (a.interviewStage ≠ none → a.status = ApplicationStatus.Interviewing) ∧
    (a.rejectionStage ≠ none → a.status = ApplicationStatus.Rejected)

instance (a : JobApplication) : Decidable (StageOk a) := by
  unfold StageOk
  infer_instance

/-- No two rows of the same `(ownerId, status)` partition share an
`orderIndex`. -/
def UniqueOrderIndices (db : List JobApplication) : Prop :=
  db.Pairwise (fun a b =>
    a.userId = b.userId → a.status = b.status → a.orderIndex ≠ b.orderIndex)

instance (db : List JobApplication) : Decidable (UniqueOrderIndices db) := by
  unfold UniqueOrderIndices
  infer_instance

/-- The primary-key property of the `id` column. -/
def UniqueIds (db : List JobApplication) : Prop :=
  db.Pairwise (fun a b => a.id ≠ b.id)

instance (db : List JobApplication) : Decidable (UniqueIds db) := by
  unfold UniqueIds
  infer_instance

/-- States reachable from `db0` by any finite sequence of `moveApplication`
calls. -/
inductive MoveReachable : List JobApplication → List JobApplication → Prop
  | refl (db : List JobApplication) : MoveReachable db db
  | step {db0 db : List JobApplication}
      (applicationId : Nat) (moveData : MoveData) (userId : Nat) :
      MoveReachable db0 db →
      MoveReachable db0 (moveApplication applicationId moveData userId db).2

/-- States reachable from `db0` by finite sequences of `moveApplication`
calls each of which either finds nothing or changes the status of the
moved application (a cross-column move). -/
inductive CrossMoveReachable : List JobApplication → List JobApplication → Prop
  | refl (db : List JobApplication) : CrossMoveReachable db db
  | step {db0 db : List JobApplication}
      (applicationId : Nat) (moveData : MoveData) (userId : Nat) :
      CrossMoveReachable db0 db →
      (∀ app, getApplicationById applicationId userId db = some app →
        app.status ≠ moveData.status) →
      CrossMoveReachable db0 (moveApplication applicationId moveData userId db).2

/-- The shared-types `ApplicationStatus` enumeration
(`shared-types`, four members); the Zod schema of the move endpoint is
`z.nativeEnum` over it. -/
inductive SharedApplicationStatus : Type
  | APPLIED
  | INTERVIEWING
  | OFFER
  | REJECTED
deriving DecidableEq, Repr

/-- The `as ApplicationStatus` cast performed by the service when writing a
shared-types status into the persisted enumeration. -/
def sharedStatusToDb : SharedApplicationStatus → ApplicationStatus
  | SharedApplicationStatus.APPLIED => ApplicationStatus.Applied
  | SharedApplicationStatus.INTERVIEWING => ApplicationStatus.Interviewing
  | SharedApplicationStatus.OFFER => ApplicationStatus.Offer
  | SharedApplicationStatus.REJECTED => ApplicationStatus.Rejected

/-- `z.nativeEnum(ApplicationStatus)`: a raw string parses exactly when it
is one of the four enumeration values. -/
def parseSharedStatus (s : String) : Option SharedApplicationStatus :=
  if s = "Applied" then some SharedApplicationStatus.APPLIED
  else if s = "Interviewing" then some SharedApplicationStatus.INTERVIEWING
  else if s = "Offer" then some SharedApplicationStatus.OFFER
  else if s = "Rejected" then some SharedApplicationStatus.REJECTED
  else none

/-- A raw request body for `PATCH /applications/:id/move`: the status is an
arbitrary string before validation; the stage fields distinguish an absent
key (outer `none`) from an explicit null (inner `none`). -/
structure MoveRequest : Type where
  status : String
  orderIndex : Int
  interviewStage : Option (Option String)
  rejectionStage : Option (Option String)
deriving DecidableEq, Repr

/-- `z.string().max(100).optional().nullable()` on a stage field. -/
def stageFieldValid : Option (Option String) → Bool
  | none => true
  | some none => true
  | some (some s) => s.length ≤ 100

/-- Embedding of `jobApplicationMoveSchema`
(`src/schemas/job-application.ts`): status must parse under the four-value
enumeration, `orderIndex` is an integer at least 0, stage fields are
optional nullable strings of length at most 100.  A passing request is
returned as the `MoveData` handed to `moveApplication` (the service
collapses an absent stage key and an explicit null via `?? null`). -/
def jobApplicationMoveSchema (req : MoveRequest) : Option MoveData :=
  match parseSharedStatus req.status with
  | none => none
  | some st =>
    if 0 ≤ req.orderIndex ∧ stageFieldValid req.interviewStage ∧
        stageFieldValid req.rejectionStage then
      some { status := sharedStatusToDb st, orderIndex := req.orderIndex,
             interviewStage := req.interviewStage.getD none,
             rejectionStage := req.rejectionStage.getD none }
    else none

/-- Fixture builder for concrete database states used in scenario
theorems: a row with the given keys, status, order index and stage
fields, and fixed inert descriptive columns. -/
def mkApp (id userId : Nat) (st : ApplicationStatus) (idx : Int)
    (istage rstage : Option String) : JobApplication :=
  { id := id, userId := userId, companyId := none, companyName := "c",
    positionTitle := "p", status := st, interviewStage := istage,
    rejectionStage := rstage, applicationDate := "d", salaryRange := none,
    location := none, notes := none, orderIndex := idx }

def dbPair : List JobApplication :=
  [mkApp 1 7 ApplicationStatus.Applied 0 none none,
   mkApp 2 7 ApplicationStatus.Applied 1 none none]

def dbSingle : List JobApplication :=
  [mkApp 1 7 ApplicationStatus.Applied 0 none none]

def dbDest : List JobApplication :=
  [mkApp 10 7 ApplicationStatus.Interviewing 0 none none,
   mkApp 11 7 ApplicationStatus.Interviewing 1 none none,
   mkApp 12 7 ApplicationStatus.Interviewing 2 none none,
   mkApp 1 7 ApplicationStatus.Applied 0 none none]

def dbIntra : List JobApplication :=
  [mkApp 1 7 ApplicationStatus.Interviewing 0 none none,
   mkApp 2 7 ApplicationStatus.Interviewing 1 none none,
   mkApp 3 7 ApplicationStatus.Interviewing 2 none none]

def dbStages : List JobApplication :=
  [mkApp 1 7 ApplicationStatus.Interviewing 0 (some "Screen") none]

def mdToAppliedZero : MoveData :=
  { status := ApplicationStatus.Applied, orderIndex := 0,
    interviewStage := none, rejectionStage := none }

def mdToInterviewZero : MoveData :=
  { status := ApplicationStatus.Interviewing, orderIndex := 0,
    interviewStage := some "Phone", rejectionStage := none }

def mdToInterviewOne : MoveData :=
  { status := ApplicationStatus.Interviewing, orderIndex := 1,
    interviewStage := some "Tech", rejectionStage := none }

def mdIntra : MoveData :=
  { status := ApplicationStatus.Interviewing, orderIndex := 0,
    interviewStage := some "Onsite", rejectionStage := none }

def createWithStaleStage : JobApplicationCreate :=
  { companyId := none, companyName := "Acme", positionTitle := "Dev",
    status := ApplicationStatus.Applied, interviewStage := some "Onsite",
    rejectionStage := none, applicationDate := "2024-01-01",
    salaryRange := none, location := none, notes := none, orderIndex := none }

/-! ### General lemmas about the embedded operations -/

theorem getApplicationById_some {applicationId userId : Nat}
    {db : List JobApplication} {app : JobApplication}
    (h : getApplicationById applicationId userId db = some app) :
    app ∈ db ∧ app.id = applicationId ∧ app.userId = userId := by
  refine ⟨List.mem_of_find?_eq_some h, ?_, ?_⟩ <;>
    have hp := List.find?_some h <;>
    simp only [Bool.and_eq_true, beq_iff_eq] at hp
  · exact hp.1
  · exact hp.2

theorem moveApplication_of_none {applicationId userId : Nat} {moveData : MoveData}
    {db : List JobApplication}
    (h : getApplicationById applicationId userId db = none) :
    moveApplication applicationId moveData userId db = (none, db) := by
  unfold moveApplication
  rw [h]

theorem moveApplication_snd {applicationId userId : Nat} {moveData : MoveData}
    {db : List JobApplication} {application : JobApplication}
    (hfind : getApplicationById applicationId userId db = some application) :
    (moveApplication applicationId moveData userId db).2 =
      db.map (moveStep application moveData applicationId userId) := by
  unfold moveApplication
  rw [hfind]
  by_cases hc : application.status = moveData.status
  · simp only [hc, ne_eq, not_true_eq_false, if_false, ite_false]
    refine List.map_congr_left (fun a _ => ?_)
    unfold moveStep
    by_cases h1 : a.id = applicationId ∧ a.userId = userId
    · simp [h1]
    · simp [h1, hc]
  · simp only [ne_eq, hc, not_false_eq_true, if_true, ite_true, List.map_map]
    refine List.map_congr_left (fun a _ => ?_)
    simp only [Function.comp]
    unfold moveStep
    by_cases h1 : a.id = applicationId ∧ a.userId = userId
    · have hsh : ¬ shiftCond moveData applicationId userId a := by
        intro hs
        exact hs.2.2.2 h1.1
      rw [if_neg hsh, if_pos h1, if_pos h1]
    · by_cases h2 : shiftCond moveData applicationId userId a
      · have hne : ¬((bumpOrder a).id = applicationId ∧ (bumpOrder a).userId = userId) := by
          simpa [bumpOrder] using h1
        rw [if_pos h2, if_neg hne, if_neg h1, if_pos ⟨hc, h2⟩]
      · have hne : ¬(application.status ≠ moveData.status ∧
            shiftCond moveData applicationId userId a) := fun h => h2 h.2
        rw [if_neg h2, if_neg h1, if_neg h1, if_neg hne]

theorem moveApplication_fst {applicationId userId : Nat} {moveData : MoveData}
    {db : List JobApplication} {application : JobApplication}
    (hfind : getApplicationById applicationId userId db = some application) :
    (moveApplication applicationId moveData userId db).1 =
      some (retargetApp moveData application) := by
  unfold moveApplication
  rw [hfind]

theorem moveStep_id (application : JobApplication) (moveData : MoveData)
    (applicationId userId : Nat) (a : JobApplication) :
    (moveStep application moveData applicationId userId a).id = a.id := by
  unfold moveStep retargetApp bumpOrder
  split_ifs <;> rfl

theorem moveStep_userId (application : JobApplication) (moveData : MoveData)
    (applicationId userId : Nat) (a : JobApplication) :
    (moveStep application moveData applicationId userId a).userId = a.userId := by
  unfold moveStep retargetApp bumpOrder
  split_ifs with h1 h2
  · rfl
  · rfl
  · rfl

@[simp]
theorem retargetApp_id (moveData : MoveData) (a : JobApplication) :
    (retargetApp moveData a).id = a.id := rfl

@[simp]
theorem retargetApp_userId (moveData : MoveData) (a : JobApplication) :
    (retargetApp moveData a).userId = a.userId := rfl

@[simp]
theorem retargetApp_status (moveData : MoveData) (a : JobApplication) :
    (retargetApp moveData a).status = moveData.status := rfl

@[simp]
theorem retargetApp_orderIndex (moveData : MoveData) (a : JobApplication) :
    (retargetApp moveData a).orderIndex = moveData.orderIndex := rfl

@[simp]
theorem bumpOrder_id (a : JobApplication) : (bumpOrder a).id = a.id := rfl

@[simp]
theorem bumpOrder_userId (a : JobApplication) :
    (bumpOrder a).userId = a.userId := rfl

@[simp]
theorem bumpOrder_status (a : JobApplication) :
    (bumpOrder a).status = a.status := rfl

@[simp]
theorem bumpOrder_orderIndex (a : JobApplication) :
    (bumpOrder a).orderIndex = a.orderIndex + 1 := rfl

theorem moveStep_mover (application : JobApplication) (moveData : MoveData)
    (applicationId userId : Nat) {a : JobApplication}
    (h1 : a.id = applicationId ∧ a.userId = userId) :
    moveStep application moveData applicationId userId a =
      retargetApp moveData a := by
  unfold moveStep
  rw [if_pos h1]

theorem moveStep_same_status (application : JobApplication)
    (moveData : MoveData) (applicationId userId : Nat) {a : JobApplication}
    (hs : application.status = moveData.status)
    (h1 : ¬(a.id = applicationId ∧ a.userId = userId)) :
    moveStep application moveData applicationId userId a = a := by
  unfold moveStep
  rw [if_neg h1, if_neg (fun h => h.1 hs)]

theorem moveStep_not_mover (application : JobApplication) (moveData : MoveData)
    (applicationId userId : Nat) {a : JobApplication}
    (h1 : ¬(a.id = applicationId ∧ a.userId = userId)) :
    moveStep application moveData applicationId userId a =
      if application.status ≠ moveData.status ∧
          shiftCond moveData applicationId userId a then bumpOrder a else a := by
  unfold moveStep
  rw [if_neg h1]

theorem retargetApp_retargetApp (moveData : MoveData) (a : JobApplication) :
    retargetApp moveData (retargetApp moveData a) = retargetApp moveData a :=
  rfl

theorem getApplicationById_after_move
    (applicationId userId : Nat) (moveData : MoveData)
    {db : List JobApplication} {application : JobApplication}
    (hfind : getApplicationById applicationId userId db = some application) :
    getApplicationById applicationId userId
        ((moveApplication applicationId moveData userId db).2) =
      some (retargetApp moveData application) := by
  obtain ⟨_, hid, hu⟩ := getApplicationById_some hfind
  rw [moveApplication_snd hfind]
  unfold getApplicationById at hfind ⊢
  rw [List.find?_map]
  have hpg : ((fun a : JobApplication => a.id == applicationId && a.userId == userId) ∘
      moveStep application moveData applicationId userId) =
      (fun a : JobApplication => a.id == applicationId && a.userId == userId) := by
    funext a
    simp [Function.comp, moveStep_id, moveStep_userId]
  rw [hpg, hfind, Option.map_some']
  rw [moveStep_mover application moveData applicationId userId ⟨hid, hu⟩]

theorem moveApplication_length
    (applicationId userId : Nat) (moveData : MoveData)
    {db : List JobApplication} {application : JobApplication}
    (hfind : getApplicationById applicationId userId db = some application) :
    (moveApplication applicationId moveData userId db).2.length = db.length := by
  have hsnd : (moveApplication applicationId moveData userId db).2 =
      db.map (moveStep application moveData applicationId userId) :=
    moveApplication_snd hfind
  rw [hsnd, List.length_map]

theorem moveApplication_get
    (applicationId userId : Nat) (moveData : MoveData)
    {db : List JobApplication} {application : JobApplication}
    (hfind : getApplicationById applicationId userId db = some application)
    (i : Nat) (h1 : i < db.length)
    (h2 : i < (moveApplication applicationId moveData userId db).2.length) :
    (moveApplication applicationId moveData userId db).2.get ⟨i, h2⟩ =
      moveStep application moveData applicationId userId (db.get ⟨i, h1⟩) := by
  have hsnd : (moveApplication applicationId moveData userId db).2 =
      db.map (moveStep application moveData applicationId userId) :=
    moveApplication_snd hfind
  revert h2
  rw [hsnd]
  intro h2
  simp [List.get_eq_getElem, List.getElem_map]

theorem stageOk_retargetApp (moveData : MoveData) (a : JobApplication) :
    StageOk (retargetApp moveData a) := by
  unfold StageOk retargetApp reconcileStages
  cases moveData.status <;> simp

theorem stageOk_moveStep {a : JobApplication} (application : JobApplication)
    (moveData : MoveData) (applicationId userId : Nat) (h : StageOk a) :
    StageOk (moveStep application moveData applicationId userId a) := by
  unfold moveStep
  split_ifs with h1 h2
  · exact stageOk_retargetApp moveData a
  · exact h
  · exact h

theorem move_preserves_stagesOk {db : List JobApplication}
    (applicationId : Nat) (moveData : MoveData) (userId : Nat)
    (h : ∀ a ∈ db, StageOk a) :
    ∀ a ∈ (moveApplication applicationId moveData userId db).2, StageOk a := by
  intro a ha
  cases hfind : getApplicationById applicationId userId db with
  | none =>
    rw [moveApplication_of_none hfind] at ha
    exact h a ha
  | some application =>
    rw [moveApplication_snd hfind] at ha
    obtain ⟨b, hb, rfl⟩ := List.mem_map.mp ha
    exact stageOk_moveStep application moveData applicationId userId (h b hb)

theorem moveReachable_stagesOk {db0 db : List JobApplication}
    (hreach : MoveReachable db0 db) (h0 : ∀ a ∈ db0, StageOk a) :
    ∀ a ∈ db, StageOk a := by
  induction hreach with
  | refl => exact h0
  | step applicationId moveData userId _ ih =>
    exact move_preserves_stagesOk applicationId moveData userId ih

theorem move_preserves_uniqueIds {db : List JobApplication}
    (applicationId : Nat) (moveData : MoveData) (userId : Nat)
    (h : UniqueIds db) :
    UniqueIds (moveApplication applicationId moveData userId db).2 := by
  cases hfind : getApplicationById applicationId userId db with
  | none =>
    rw [moveApplication_of_none hfind]
    exact h
  | some application =>
    rw [moveApplication_snd hfind]
    unfold UniqueIds at h ⊢
    rw [List.pairwise_map]
    refine h.imp (fun {a b} hab => ?_)
    rw [moveStep_id, moveStep_id]
    exact hab

/-- Pointwise preservation of per-partition index uniqueness by the
combined row effect of a cross-column move, for two rows with distinct
primary keys. -/
theorem moveStep_orderIndex_ne {application : JobApplication}
    {moveData : MoveData} {applicationId userId : Nat}
    (hcross : application.status ≠ moveData.status)
    {a b : JobApplication} (hid : a.id ≠ b.id)
    (hR : a.userId = b.userId → a.status = b.status →
      a.orderIndex ≠ b.orderIndex) :
    (moveStep application moveData applicationId userId a).userId =
        (moveStep application moveData applicationId userId b).userId →
      (moveStep application moveData applicationId userId a).status =
          (moveStep application moveData applicationId userId b).status →
        (moveStep application moveData applicationId userId a).orderIndex ≠
          (moveStep application moveData applicationId userId b).orderIndex := by
  unfold moveStep
  by_cases h1 : a.id = applicationId ∧ a.userId = userId <;>
    by_cases h2 : b.id = applicationId ∧ b.userId = userId
  · exact absurd (h1.1.trans h2.1.symm) hid
  · rw [if_pos h1, if_neg h2]
    by_cases h3 : shiftCond moveData applicationId userId b
    · rw [if_pos ⟨hcross, h3⟩]
      intro hu hs
      have := h3.2.2.1
      simp only [retargetApp_orderIndex, bumpOrder_orderIndex]
      omega
    · rw [if_neg (fun h => h3 h.2)]
      simp only [retargetApp_userId, retargetApp_status, retargetApp_orderIndex]
      intro hu hs
      have hbu : b.userId = userId := hu ▸ h1.2
      have hbid : b.id ≠ applicationId := fun h => hid (h1.1.trans h.symm)
      have hlt : ¬ moveData.orderIndex ≤ b.orderIndex := by
        intro h
        exact h3 ⟨hbu, hs.symm, h, hbid⟩
      omega
  · rw [if_neg h1, if_pos h2]
    by_cases h3 : shiftCond moveData applicationId userId a
    · rw [if_pos ⟨hcross, h3⟩]
      intro hu hs
      have := h3.2.2.1
      simp only [retargetApp_orderIndex, bumpOrder_orderIndex]
      omega
    · rw [if_neg (fun h => h3 h.2)]
      simp only [retargetApp_userId, retargetApp_status, retargetApp_orderIndex]
      intro hu hs
      have hau : a.userId = userId := hu.symm ▸ h2.2
      have haid : a.id ≠ applicationId := fun h => hid (h.trans h2.1.symm)
      have hlt : ¬ moveData.orderIndex ≤ a.orderIndex := by
        intro h
        exact h3 ⟨hau, hs, h, haid⟩
      omega
  · rw [if_neg h1, if_neg h2]
    by_cases h3 : shiftCond moveData applicationId userId a <;>
      by_cases h4 : shiftCond moveData applicationId userId b
    · rw [if_pos ⟨hcross, h3⟩, if_pos ⟨hcross, h4⟩]
      simp only [bumpOrder_userId, bumpOrder_status, bumpOrder_orderIndex]
      intro hu hs
      have := hR hu hs
      omega
    · rw [if_pos ⟨hcross, h3⟩, if_neg (fun h => h4 h.2)]
      simp only [bumpOrder_userId, bumpOrder_status, bumpOrder_orderIndex]
      intro hu hs
      have hbu : b.userId = userId := hu ▸ h3.1
      have hbst : b.status = moveData.status := hs ▸ h3.2.1
      have hbid : b.id ≠ applicationId := fun h => h2 ⟨h, hbu⟩
      have hlt : ¬ moveData.orderIndex ≤ b.orderIndex := by
        intro h
        exact h4 ⟨hbu, hbst, h, hbid⟩
      have := h3.2.2.1
      omega
    · rw [if_neg (fun h => h3 h.2), if_pos ⟨hcross, h4⟩]
      simp only [bumpOrder_userId, bumpOrder_status, bumpOrder_orderIndex]
      intro hu hs
      have hau : a.userId = userId := hu.symm ▸ h4.1
      have hast : a.status = moveData.status := hs.symm ▸ h4.2.1
      have haid : a.id ≠ applicationId := fun h => h1 ⟨h, hau⟩
      have hlt : ¬ moveData.orderIndex ≤ a.orderIndex := by
        intro h
        exact h3 ⟨hau, hast, h, haid⟩
      have := h4.2.2.1
      omega
    · rw [if_neg (fun h => h3 h.2), if_neg (fun h => h4 h.2)]
      exact hR

theorem crossMove_preserves_uniqueOrderIndices {db : List JobApplication}
    {applicationId userId : Nat} {moveData : MoveData}
    {application : JobApplication}
    (hfind : getApplicationById applicationId userId db = some application)
    (hcross : application.status ≠ moveData.status)
    (hids : UniqueIds db) (h : UniqueOrderIndices db) :
    UniqueOrderIndices (moveApplication applicationId moveData userId db).2 := by
  rw [moveApplication_snd hfind]
  unfold UniqueOrderIndices at h ⊢
  unfold UniqueIds at hids
  rw [List.pairwise_map]
  exact (hids.and h).imp
    (fun {a b} hab => moveStep_orderIndex_ne hcross hab.1 hab.2)

theorem crossMoveReachable_uniqueIds {db0 db : List JobApplication}
    (hreach : CrossMoveReachable db0 db) (h0 : UniqueIds db0) : UniqueIds db := by
  induction hreach with
  | refl => exact h0
  | step applicationId moveData userId _ _ ih =>
    exact move_preserves_uniqueIds applicationId moveData userId ih

theorem maxOrderIn_cons (a : JobApplication) (t : List JobApplication) :
    maxOrderIn (a :: t) =
      match maxOrderIn t with
      | none => some a.orderIndex
      | some m => some (max a.orderIndex m) := rfl

theorem maxOrderIn_eq_none {l : List JobApplication} :
    maxOrderIn l = none ↔ l = [] := by
  cases l with
  | nil => simp [maxOrderIn]
  | cons a t =>
    rw [maxOrderIn_cons]
    cases h : maxOrderIn t <;> simp

theorem maxOrderIn_mem {l : List JobApplication} {m : Int}
    (h : maxOrderIn l = some m) : ∃ b ∈ l, b.orderIndex = m := by
  induction l generalizing m with
  | nil => simp [maxOrderIn] at h
  | cons a t ih =>
    rw [maxOrderIn_cons] at h
    cases ht : maxOrderIn t with
    | none =>
      rw [ht] at h
      exact ⟨a, List.mem_cons_self a t, Option.some.inj h⟩
    | some k =>
      rw [ht] at h
      have hm := Option.some.inj h
      rcases le_total a.orderIndex k with hle | hle
      · obtain ⟨b, hb, hbo⟩ := ih ht
        refine ⟨b, List.mem_cons_of_mem a hb, ?_⟩
        rw [hbo, ← hm, max_eq_right hle]
      · refine ⟨a, List.mem_cons_self a t, ?_⟩
        rw [← hm, max_eq_left hle]

theorem maxOrderIn_le {l : List JobApplication} {m : Int}
    (h : maxOrderIn l = some m) : ∀ b ∈ l, b.orderIndex ≤ m := by
  induction l generalizing m with
  | nil => simp
  | cons a t ih =>
    rw [maxOrderIn_cons] at h
    intro b hb
    rcases List.mem_cons.mp hb with rfl | hbt
    · cases ht : maxOrderIn t with
      | none =>
        rw [ht] at h
        exact le_of_eq (Option.some.inj h)
      | some k =>
        rw [ht] at h
        rw [← Option.some.inj h]
        exact le_max_left _ _
    · cases ht : maxOrderIn t with
      | none =>
        rw [maxOrderIn_eq_none.mp ht] at hbt
        simp at hbt
      | some k =>
        rw [ht] at h
        have := ih ht b hbt
        rw [← Option.some.inj h]
        exact le_trans this (le_max_right _ _)

theorem createApplication_fst_orderIndex (applicationData : JobApplicationCreate)
    (userId newId : Nat) (db : List JobApplication) :
    (createApplication applicationData userId newId db).1.orderIndex =
      applicationData.orderIndex.getD
        (match maxOrderIn (db.filter (fun a =>
            a.status == applicationData.status && a.userId == userId)) with
         | some m => m + 1
         | none => 0) := rfl

theorem createApplication_orderIndex_of_max
    (applicationData : JobApplicationCreate) (userId newId : Nat)
    (db : List JobApplication) (m : Int)
    (hnone : applicationData.orderIndex = none)
    (hmax : maxOrderIn (db.filter (fun a =>
        a.status == applicationData.status && a.userId == userId)) = some m) :
    (createApplication applicationData userId newId db).1.orderIndex = m + 1 := by
  rw [createApplication_fst_orderIndex, hnone, Option.getD_none, hmax]

theorem createApplication_orderIndex_of_empty
    (applicationData : JobApplicationCreate) (userId newId : Nat)
    (db : List JobApplication)
    (hnone : applicationData.orderIndex = none)
    (hmax : maxOrderIn (db.filter (fun a =>
        a.status == applicationData.status && a.userId == userId)) = none) :
    (createApplication applicationData userId newId db).1.orderIndex = 0 := by
  rw [createApplication_fst_orderIndex, hnone, Option.getD_none, hmax]

/-! ### C1: uniqueness of order indices under move sequences -/

/-- C1 counterexample: the claim fails as stated.  Starting from a state
with unique ids and unique order indices per partition (two Applied rows
of owner 7 at indices 0 and 1), a single intra-column move of row 2 to
index 0 leaves both rows at index 0 in the same partition, because
`moveApplication` shifts peers only when the status changes. -/
theorem move_uniqueness_counterexample :
    UniqueIds dbPair ∧ UniqueOrderIndices dbPair ∧
      ¬ UniqueOrderIndices (moveApplication 2 mdToAppliedZero 7 dbPair).2 := by
  decide

/-- C1 (amended): after any finite sequence of moves each of which either
finds no application or changes the moved application's status
(cross-column moves), starting from a state with unique primary keys in
which no two rows of the same `(ownerId, status)` partition share an
`orderIndex`, the partitions still have pairwise distinct order indices;
intra-column moves are excluded because they do not shift peers. -/
theorem uniqueOrderIndices_preserved_by_cross_moves
    (db0 db : List JobApplication) (hreach : CrossMoveReachable db0 db)
    (hids : UniqueIds db0) (h0 : UniqueOrderIndices db0) :
    UniqueOrderIndices db := by
  induction hreach with
  | refl => exact h0
  | @step dbB applicationId moveData userId hr hvalid ih =>
    have hids1 : UniqueIds dbB := crossMoveReachable_uniqueIds hr hids
    cases hfind : getApplicationById applicationId userId dbB with
    | none =>
      rw [moveApplication_of_none hfind]
      exact ih
    | some application =>
      exact crossMove_preserves_uniqueOrderIndices hfind
        (hvalid application hfind) hids1 ih

/-- Witness for C1: one concrete cross-column move from a singleton state
keeps the order indices unique. -/
theorem uniqueOrderIndices_preserved_by_cross_moves_witness :
    UniqueOrderIndices (moveApplication 1 mdToInterviewZero 7 dbSingle).2 :=
  uniqueOrderIndices_preserved_by_cross_moves dbSingle
    (moveApplication 1 mdToInterviewZero 7 dbSingle).2
    (CrossMoveReachable.step 1 mdToInterviewZero 7
      (CrossMoveReachable.refl dbSingle)
      (by
        intro app h
        rw [show getApplicationById 1 7 dbSingle =
            some (mkApp 1 7 ApplicationStatus.Applied 0 none none) from rfl] at h
        cases h
        decide))
    (by decide) (by decide)

/-! ### C2: cross-column shift correctness -/

/-- C2 (confirmed): on a cross-column move, every pre-existing destination
member (same owner, target status, id different from the mover) whose
order index is at or above the target index ends up with its index
incremented by exactly one, members below the target index keep theirs,
and in the concrete scenario (destination members at 0, 1, 2 and a foreign
record moved to index 1) the destination partition ends with indices
0, 1, 2, 3: mover at 1, former 1 at 2, former 2 at 3. -/
theorem cross_column_shift_correct
    (applicationId userId : Nat) (moveData : MoveData)
    (db : List JobApplication) (application : JobApplication)
    (hfind : getApplicationById applicationId userId db = some application)
    (hcross : application.status ≠ moveData.status) :
    (∀ b ∈ db, b.id ≠ applicationId → b.userId = userId →
      b.status = moveData.status → moveData.orderIndex ≤ b.orderIndex →
        { b with orderIndex := b.orderIndex + 1 } ∈
          (moveApplication applicationId moveData userId db).2) ∧
    (∀ b ∈ db, b.id ≠ applicationId → b.userId = userId →
      b.status = moveData.status → b.orderIndex < moveData.orderIndex →
        b ∈ (moveApplication applicationId moveData userId db).2) ∧
    ((moveApplication 1 mdToInterviewOne 7 dbDest).2.filter
        (fun a => a.status == ApplicationStatus.Interviewing && a.userId == 7)).map
        (fun a => (a.id, a.orderIndex)) = [(10, 0), (11, 2), (12, 3), (1, 1)] := by
  refine ⟨?_, ?_, by decide⟩
  · intro b hb hbid hbu hbst hble
    rw [moveApplication_snd hfind]
    have heq : moveStep application moveData applicationId userId b =
        { b with orderIndex := b.orderIndex + 1 } := by
      unfold moveStep
      rw [if_neg (fun h => hbid h.1), if_pos ⟨hcross, hbu, hbst, hble, hbid⟩]
      rfl
    exact heq ▸ List.mem_map_of_mem _ hb
  · intro b hb hbid hbu hbst hlt
    rw [moveApplication_snd hfind]
    have heq : moveStep application moveData applicationId userId b = b := by
      unfold moveStep
      rw [if_neg (fun h => hbid h.1),
        if_neg (fun h => absurd h.2.2.2.1 (not_le.mpr hlt))]
    exact heq ▸ List.mem_map_of_mem _ hb

/-- Witness for C2: in the concrete scenario the former index-1 member of
the destination partition is stored with index 2 after the move. -/
theorem cross_column_shift_correct_witness :
    { mkApp 11 7 ApplicationStatus.Interviewing 1 none none with
        orderIndex := (2 : Int) } ∈
      (moveApplication 1 mdToInterviewOne 7 dbDest).2 :=
  (cross_column_shift_correct 1 7 mdToInterviewOne dbDest
      (mkApp 1 7 ApplicationStatus.Applied 0 none none)
      (by decide) (by decide)).1
    (mkApp 11 7 ApplicationStatus.Interviewing 1 none none)
    (by decide) (by decide) (by decide) (by decide) (by decide)

/-! ### C3: postcondition on the moved record -/

/-- C3 (confirmed): a successful move stores and returns a record whose
status and order index are exactly the requested ones — no clamping or
renumbering for any non-negative target index, whatever the destination
partition holds — whose interview stage is the requested one (with null
rejection stage) when the target status is Interviewing, whose rejection
stage is the requested one (with null interview stage) when the target is
Rejected, and whose stage fields are both null for every other target
status. -/
theorem move_postcondition_on_moved_record
    (applicationId userId : Nat) (moveData : MoveData)
    (db : List JobApplication) (application : JobApplication)
    (hfind : getApplicationById applicationId userId db = some application)
    (_hidx : 0 ≤ moveData.orderIndex) :
    ∃ r, (moveApplication applicationId moveData userId db).1 = some r ∧
      r ∈ (moveApplication applicationId moveData userId db).2 ∧
      r.status = moveData.status ∧ r.orderIndex = moveData.orderIndex ∧
      (moveData.status = ApplicationStatus.Interviewing →
        r.interviewStage = moveData.interviewStage ∧ r.rejectionStage = none) ∧
      (moveData.status = ApplicationStatus.Rejected →
        r.rejectionStage = moveData.rejectionStage ∧ r.interviewStage = none) ∧
      (moveData.status ≠ ApplicationStatus.Interviewing →
        moveData.status ≠ ApplicationStatus.Rejected →
        r.interviewStage = none ∧ r.rejectionStage = none) := by
  obtain ⟨hmem, hid, hu⟩ := getApplicationById_some hfind
  refine ⟨retargetApp moveData application, moveApplication_fst hfind, ?_,
    rfl, rfl, ?_, ?_, ?_⟩
  · rw [moveApplication_snd hfind]
    have heq : moveStep application moveData applicationId userId application =
        retargetApp moveData application := by
      unfold moveStep
      rw [if_pos ⟨hid, hu⟩]
    exact heq ▸ List.mem_map_of_mem _ hmem
  · intro h
    simp [retargetApp, reconcileStages, h]
  · intro h
    simp [retargetApp, reconcileStages, h]
  · intro h1 h2
    simp [retargetApp, reconcileStages, h1, h2]

/-- Witness for C3: the concrete cross-column move of the scenario, applied
through the theorem. -/
theorem move_postcondition_on_moved_record_witness :
    ∃ r, (moveApplication 1 mdToInterviewOne 7 dbDest).1 = some r ∧
      r ∈ (moveApplication 1 mdToInterviewOne 7 dbDest).2 ∧
      r.status = mdToInterviewOne.status ∧
      r.orderIndex = mdToInterviewOne.orderIndex ∧
      (mdToInterviewOne.status = ApplicationStatus.Interviewing →
        r.interviewStage = mdToInterviewOne.interviewStage ∧
          r.rejectionStage = none) ∧
      (mdToInterviewOne.status = ApplicationStatus.Rejected →
        r.rejectionStage = mdToInterviewOne.rejectionStage ∧
          r.interviewStage = none) ∧
      (mdToInterviewOne.status ≠ ApplicationStatus.Interviewing →
        mdToInterviewOne.status ≠ ApplicationStatus.Rejected →
        r.interviewStage = none ∧ r.rejectionStage = none) :=
  move_postcondition_on_moved_record 1 7 mdToInterviewOne dbDest
    (mkApp 1 7 ApplicationStatus.Applied 0 none none) (by decide) (by decide)

/-! ### C4: stage exclusivity -/

/-- C4 counterexample: the claim fails as stated.  A single (schema-valid)
create with status `Applied` and a non-null interview stage produces a
stored record whose `interviewStage` is non-null while its status is not
`Interviewing`: `createApplication` copies the requested stage fields
without reconciling them against the status, and so does
`updateApplication`. -/
theorem stage_exclusivity_counterexample :
    ∃ a ∈ (createApplication createWithStaleStage 7 1 []).2,
      a.interviewStage ≠ none ∧ a.status ≠ ApplicationStatus.Interviewing := by
  decide

/-- C4 (amended): the stage-exclusivity invariant is preserved by every
sequence of `moveApplication` calls — starting from a state in which every
record satisfies it, every reachable record has a non-null
`interviewStage` only with status `Interviewing`, a non-null
`rejectionStage` only with status `Rejected`, and never both stages
non-null — but `createApplication` and `updateApplication` do not enforce
it (see the counterexample). -/
theorem stage_exclusivity_under_move_sequences
    (db0 db : List JobApplication) (hreach : MoveReachable db0 db)
    (h0 : ∀ a ∈ db0, StageOk a) :
    ∀ a ∈ db,
      (a.interviewStage ≠ none → a.status = ApplicationStatus.Interviewing) ∧
      (a.rejectionStage ≠ none → a.status = ApplicationStatus.Rejected) ∧
      ¬(a.interviewStage ≠ none ∧ a.rejectionStage ≠ none) := by
  intro a ha
  have h := moveReachable_stagesOk hreach h0 a ha
  refine ⟨h.1, h.2, ?_⟩
  rintro ⟨hi, hr⟩
  have h1 := h.1 hi
  have h2 := h.2 hr
  rw [h1] at h2
  exact absurd h2 (by decide)

/-- Witness for C4: after the concrete move out of `Interviewing` (which
clears the stage fields) the stored record is stage-exclusive. -/
theorem stage_exclusivity_under_move_sequences_witness :
    StageOk (mkApp 1 7 ApplicationStatus.Applied 0 none none) :=
  ⟨(stage_exclusivity_under_move_sequences dbStages
      (moveApplication 1 mdToAppliedZero 7 dbStages).2
      (MoveReachable.step 1 mdToAppliedZero 7 (MoveReachable.refl dbStages))
      (by decide)
      (mkApp 1 7 ApplicationStatus.Applied 0 none none) (by decide)).1,
    (stage_exclusivity_under_move_sequences dbStages
      (moveApplication 1 mdToAppliedZero 7 dbStages).2
      (MoveReachable.step 1 mdToAppliedZero 7 (MoveReachable.refl dbStages))
      (by decide)
      (mkApp 1 7 ApplicationStatus.Applied 0 none none) (by decide)).2.1⟩

/-! ### C5: the intra-column reorder scenario -/

/-- C5 counterexample: the claim fails as stated.  With three Interviewing
rows of owner 7 at indices 0, 1, 2, moving the index-2 row (id 3) to
`(Interviewing, 0)` does not shift the former index-0 and index-1 members
to 1 and 2: the code skips peer shifting when the status is unchanged, so
the state maps to id/index pairs (1,0), (2,1), (3,0) and not to the
claimed (1,1), (2,2), (3,0). -/
theorem intra_column_reorder_counterexample :
    ((moveApplication 3 mdIntra 7 dbIntra).2.map (fun a => (a.id, a.orderIndex)) =
        [(1, 0), (2, 1), (3, 0)]) ∧
      (moveApplication 3 mdIntra 7 dbIntra).2.map (fun a => (a.id, a.orderIndex)) ≠
        [(1, 1), (2, 2), (3, 0)] := by
  decide

/-- C5 (amended): an intra-column move (target status equal to the current
status) performs no peer shifting at all — every row other than the moved
one is left exactly as it was, and the moved row is retargeted to the
requested index and stages; in the scenario of the claim the mover lands
at index 0 while the former index-0 and index-1 members keep indices 0
and 1. -/
theorem intra_column_move_no_peer_shift
    (applicationId userId : Nat) (moveData : MoveData)
    (db : List JobApplication) (application : JobApplication)
    (hfind : getApplicationById applicationId userId db = some application)
    (hsame : application.status = moveData.status) :
    (∀ b ∈ db, ¬(b.id = applicationId ∧ b.userId = userId) →
        b ∈ (moveApplication applicationId moveData userId db).2) ∧
    retargetApp moveData application ∈
        (moveApplication applicationId moveData userId db).2 ∧
    ((moveApplication 3 mdIntra 7 dbIntra).2.map (fun a => (a.id, a.orderIndex)) =
      [(1, 0), (2, 1), (3, 0)]) := by
  refine ⟨?_, ?_, by decide⟩
  · intro b hb hbm
    rw [moveApplication_snd hfind]
    have heq : moveStep application moveData applicationId userId b = b := by
      unfold moveStep
      rw [if_neg hbm, if_neg (fun h => h.1 hsame)]
    exact heq ▸ List.mem_map_of_mem _ hb
  · rw [moveApplication_snd hfind]
    obtain ⟨hmem, hid, hu⟩ := getApplicationById_some hfind
    have heq : moveStep application moveData applicationId userId application =
        retargetApp moveData application := by
      unfold moveStep
      rw [if_pos ⟨hid, hu⟩]
    exact heq ▸ List.mem_map_of_mem _ hmem

/-- Witness for C5 (amended): in the concrete scenario the former index-0
member is untouched by the intra-column move of row 3. -/
theorem intra_column_move_no_peer_shift_witness :
    mkApp 1 7 ApplicationStatus.Interviewing 0 none none ∈
      (moveApplication 3 mdIntra 7 dbIntra).2 :=
  (intra_column_move_no_peer_shift 3 7 mdIntra dbIntra
      (mkApp 3 7 ApplicationStatus.Interviewing 2 none none)
      (by decide) (by decide)).1
    (mkApp 1 7 ApplicationStatus.Interviewing 0 none none)
    (by decide) (by decide)

/-! ### C6: not-found handling -/

/-- C6 (confirmed): `moveApplication` returns `none` (NotFound) exactly
when no stored application has the requested id and owner — in particular
when the id exists under a different owner — and in that case the table is
returned entirely unchanged: no record of any owner is written. -/
theorem move_not_found_no_writes
    (applicationId userId : Nat) (moveData : MoveData)
    (db : List JobApplication) :
    ((moveApplication applicationId moveData userId db).1 = none ↔
      ∀ a ∈ db, ¬(a.id = applicationId ∧ a.userId = userId)) ∧
    ((moveApplication applicationId moveData userId db).1 = none →
      (moveApplication applicationId moveData userId db).2 = db) := by
  cases hfind : getApplicationById applicationId userId db with
  | none =>
    rw [moveApplication_of_none hfind]
    unfold getApplicationById at hfind
    refine ⟨⟨fun _ a ha hcond => ?_, fun _ => rfl⟩, fun _ => rfl⟩
    have hnp := List.find?_eq_none.mp hfind a ha
    simp only [Bool.and_eq_true, beq_iff_eq, not_and] at hnp
    exact hnp hcond.1 hcond.2
  | some application =>
    obtain ⟨hmem, hid, hu⟩ := getApplicationById_some hfind
    rw [moveApplication_fst hfind]
    refine ⟨⟨fun h => ?_, fun hall => ?_⟩, fun h => ?_⟩
    · simp at h
    · exact absurd ⟨hid, hu⟩ (hall application hmem)
    · simp at h

/-- Witness for C6: moving a non-existent id against the empty table
returns NotFound and writes nothing. -/
theorem move_not_found_no_writes_witness :
    (moveApplication 1 mdToAppliedZero 7 []).1 = none ∧
      (moveApplication 1 mdToAppliedZero 7 []).2 = [] :=
  ⟨(move_not_found_no_writes 1 7 mdToAppliedZero []).1.mpr (by decide),
    (move_not_found_no_writes 1 7 mdToAppliedZero []).2
      ((move_not_found_no_writes 1 7 mdToAppliedZero []).1.mpr (by decide))⟩

/-! ### C7: idempotence of move -/

/-- C7 (confirmed): calling `moveApplication` twice in immediate succession
with identical arguments returns the same record and produces exactly the
same table state as calling it once, for every starting state and every
argument tuple (the not-found case included). -/
theorem move_idempotent (applicationId : Nat) (moveData : MoveData)
    (userId : Nat) (db : List JobApplication) :
    moveApplication applicationId moveData userId
        ((moveApplication applicationId moveData userId db).2) =
      moveApplication applicationId moveData userId db := by
  cases hfind : getApplicationById applicationId userId db with
  | none =>
    rw [moveApplication_of_none hfind]
    exact moveApplication_of_none hfind
  | some application =>
    obtain ⟨hmem, hid, hu⟩ := getApplicationById_some hfind
    have hfind2 := getApplicationById_after_move applicationId userId moveData hfind
    have hg2 : ∀ a : JobApplication,
        moveStep (retargetApp moveData application) moveData applicationId userId
            (moveStep application moveData applicationId userId a) =
          moveStep application moveData applicationId userId a := by
      intro a
      by_cases h1 : a.id = applicationId ∧ a.userId = userId
      · rw [moveStep_mover application moveData applicationId userId h1]
        have h2 : (retargetApp moveData a).id = applicationId ∧
            (retargetApp moveData a).userId = userId := ⟨h1.1, h1.2⟩
        rw [moveStep_mover (retargetApp moveData application) moveData
          applicationId userId h2]
        exact retargetApp_retargetApp moveData a
      · have hne : ¬((moveStep application moveData applicationId userId a).id =
            applicationId ∧
            (moveStep application moveData applicationId userId a).userId = userId) := by
          rw [moveStep_id, moveStep_userId]
          exact h1
        exact moveStep_same_status (retargetApp moveData application) moveData
          applicationId userId rfl hne
    have hsnd : (moveApplication applicationId moveData userId
        ((moveApplication applicationId moveData userId db).2)).2 =
        (moveApplication applicationId moveData userId db).2 := by
      rw [moveApplication_snd hfind2, moveApplication_snd hfind, List.map_map]
      refine List.map_congr_left (fun a _ => ?_)
      exact hg2 a
    have hfst : (moveApplication applicationId moveData userId
        ((moveApplication applicationId moveData userId db).2)).1 =
        (moveApplication applicationId moveData userId db).1 := by
      rw [moveApplication_fst hfind2, moveApplication_fst hfind,
        retargetApp_retargetApp]
    exact Prod.ext hfst hsnd

/-! ### C8: order index assigned at creation -/

/-- C8 (confirmed): when the caller requests no explicit order index, the
created record's order index is strictly above every existing member of
its initial `(ownerId, status)` partition, equals one past some member's
index when the partition is non-empty, and is `0` when the partition is
empty. -/
theorem create_order_index_one_past_max
    (applicationData : JobApplicationCreate) (userId newId : Nat)
    (db : List JobApplication) (hnone : applicationData.orderIndex = none) :
    (∀ b ∈ db, b.status = applicationData.status → b.userId = userId →
        b.orderIndex < (createApplication applicationData userId newId db).1.orderIndex) ∧
    ((∃ b ∈ db, b.status = applicationData.status ∧ b.userId = userId) →
      ∃ b ∈ db, b.status = applicationData.status ∧ b.userId = userId ∧
        (createApplication applicationData userId newId db).1.orderIndex =
          b.orderIndex + 1) ∧
    ((∀ b ∈ db, ¬(b.status = applicationData.status ∧ b.userId = userId)) →
      (createApplication applicationData userId newId db).1.orderIndex = 0) := by
  cases hmax : maxOrderIn (db.filter (fun a =>
      a.status == applicationData.status && a.userId == userId)) with
  | none =>
    have hnil := maxOrderIn_eq_none.mp hmax
    refine ⟨fun b hb hbs hbu => ?_, fun hex => ?_,
      fun _ => createApplication_orderIndex_of_empty applicationData userId
        newId db hnone hmax⟩
    · have hbp : b ∈ db.filter (fun a =>
          a.status == applicationData.status && a.userId == userId) :=
        List.mem_filter.mpr ⟨hb, by simp [hbs, hbu]⟩
      rw [hnil] at hbp
      simp at hbp
    · obtain ⟨b, hb, hbs, hbu⟩ := hex
      have hbp : b ∈ db.filter (fun a =>
          a.status == applicationData.status && a.userId == userId) :=
        List.mem_filter.mpr ⟨hb, by simp [hbs, hbu]⟩
      rw [hnil] at hbp
      simp at hbp
  | some m =>
    have hval := createApplication_orderIndex_of_max applicationData userId
      newId db m hnone hmax
    refine ⟨fun b hb hbs hbu => ?_, fun _ => ?_, fun hall => ?_⟩
    · have hbp : b ∈ db.filter (fun a =>
          a.status == applicationData.status && a.userId == userId) :=
        List.mem_filter.mpr ⟨hb, by simp [hbs, hbu]⟩
      have := maxOrderIn_le hmax b hbp
      rw [hval]
      omega
    · obtain ⟨b, hbp, hbo⟩ := maxOrderIn_mem hmax
      have hb2 := List.mem_filter.mp hbp
      have hcond := hb2.2
      simp only [Bool.and_eq_true, beq_iff_eq] at hcond
      exact ⟨b, hb2.1, hcond.1, hcond.2, by rw [hval, hbo]⟩
    · have hnil : db.filter (fun a =>
          a.status == applicationData.status && a.userId == userId) = [] := by
        rw [List.filter_eq_nil_iff]
        intro b hb
        simp only [Bool.and_eq_true, beq_iff_eq, not_and]
        intro hbs hbu
        exact hall b hb ⟨hbs, hbu⟩
      rw [hnil] at hmax
      simp [maxOrderIn] at hmax

/-- Witness for C8: creating into the two-member Applied partition of
owner 7 assigns index 2 = 1 + 1, one past the maximum. -/
theorem create_order_index_one_past_max_witness :
    ∃ b ∈ dbPair, b.status = createWithStaleStage.status ∧ b.userId = 7 ∧
      (createApplication createWithStaleStage 7 99 dbPair).1.orderIndex =
        b.orderIndex + 1 :=
  (create_order_index_one_past_max createWithStaleStage 7 99 dbPair rfl).2.1
    (by decide)

/-! ### C9: frame property of move -/

/-- C9 (confirmed): a successful move modifies only the moved row and —
when the status changes — same-owner destination-partition rows whose
order index is at or above the target; each shifted row changes only its
order index and by exactly plus one, relative order among non-mover
destination peers is preserved, and every other row (source-partition
peers, rows below the target index, rows of other owners) is unchanged in
every field; the moved row itself keeps every field other than status,
order index and the two stage fields, as `retargetApp` writes only
those. -/
theorem move_frame_property
    (applicationId userId : Nat) (moveData : MoveData)
    (db : List JobApplication) (application : JobApplication)
    (hfind : getApplicationById applicationId userId db = some application) :
    (moveApplication applicationId moveData userId db).2.length = db.length ∧
    (∀ a : JobApplication,
      (retargetApp moveData a).id = a.id ∧
      (retargetApp moveData a).userId = a.userId ∧
      (retargetApp moveData a).companyId = a.companyId ∧
      (retargetApp moveData a).companyName = a.companyName ∧
      (retargetApp moveData a).positionTitle = a.positionTitle ∧
      (retargetApp moveData a).applicationDate = a.applicationDate ∧
      (retargetApp moveData a).salaryRange = a.salaryRange ∧
      (retargetApp moveData a).location = a.location ∧
      (retargetApp moveData a).notes = a.notes) ∧
    (∀ i (h1 : i < db.length)
        (h2 : i < (moveApplication applicationId moveData userId db).2.length),
      ((db.get ⟨i, h1⟩).id = applicationId ∧ (db.get ⟨i, h1⟩).userId = userId →
        (moveApplication applicationId moveData userId db).2.get ⟨i, h2⟩ =
          retargetApp moveData (db.get ⟨i, h1⟩)) ∧
      (¬((db.get ⟨i, h1⟩).id = applicationId ∧
          (db.get ⟨i, h1⟩).userId = userId) →
        (application.status ≠ moveData.status ∧
            (db.get ⟨i, h1⟩).userId = userId ∧
            (db.get ⟨i, h1⟩).status = moveData.status ∧
            moveData.orderIndex ≤ (db.get ⟨i, h1⟩).orderIndex →
          (moveApplication applicationId moveData userId db).2.get ⟨i, h2⟩ =
            { db.get ⟨i, h1⟩ with
                orderIndex := (db.get ⟨i, h1⟩).orderIndex + 1 }) ∧
        (¬(application.status ≠ moveData.status ∧
            (db.get ⟨i, h1⟩).userId = userId ∧
            (db.get ⟨i, h1⟩).status = moveData.status ∧
            moveData.orderIndex ≤ (db.get ⟨i, h1⟩).orderIndex) →
          (moveApplication applicationId moveData userId db).2.get ⟨i, h2⟩ =
            db.get ⟨i, h1⟩))) ∧
    (∀ i j (hi : i < db.length) (hj : j < db.length)
        (hi2 : i < (moveApplication applicationId moveData userId db).2.length)
        (hj2 : j < (moveApplication applicationId moveData userId db).2.length),
      (db.get ⟨i, hi⟩).id ≠ applicationId →
      (db.get ⟨j, hj⟩).id ≠ applicationId →
      (db.get ⟨i, hi⟩).userId = userId → (db.get ⟨j, hj⟩).userId = userId →
      (db.get ⟨i, hi⟩).status = moveData.status →
      (db.get ⟨j, hj⟩).status = moveData.status →
      (db.get ⟨i, hi⟩).orderIndex < (db.get ⟨j, hj⟩).orderIndex →
      ((moveApplication applicationId moveData userId db).2.get ⟨i, hi2⟩).orderIndex <
        ((moveApplication applicationId moveData userId db).2.get ⟨j, hj2⟩).orderIndex) := by
  refine ⟨moveApplication_length applicationId userId moveData hfind,
    fun a => ⟨rfl, rfl, rfl, rfl, rfl, rfl, rfl, rfl, rfl⟩, ?_, ?_⟩
  · intro i h1 h2
    rw [moveApplication_get applicationId userId moveData hfind i h1 h2]
    refine ⟨fun hm => moveStep_mover application moveData applicationId userId hm,
      fun hm => ⟨fun hsh => ?_, fun hsh => ?_⟩⟩
    · rw [moveStep_not_mover application moveData applicationId userId hm,
        if_pos ⟨hsh.1, hsh.2.1, hsh.2.2.1, hsh.2.2.2,
          fun h => hm ⟨h, hsh.2.1⟩⟩]
      rfl
    · rw [moveStep_not_mover application moveData applicationId userId hm,
        if_neg]
      intro hcond
      exact hsh ⟨hcond.1, hcond.2.1, hcond.2.2.1, hcond.2.2.2.1⟩
  · intro i j hi hj hi2 hj2 hiid hjid hiu hju hist hjst hlt
    rw [moveApplication_get applicationId userId moveData hfind i hi hi2,
      moveApplication_get applicationId userId moveData hfind j hj hj2]
    have hmi : ¬((db.get ⟨i, hi⟩).id = applicationId ∧
        (db.get ⟨i, hi⟩).userId = userId) := fun h => hiid h.1
    have hmj : ¬((db.get ⟨j, hj⟩).id = applicationId ∧
        (db.get ⟨j, hj⟩).userId = userId) := fun h => hjid h.1
    rw [moveStep_not_mover application moveData applicationId userId hmi,
      moveStep_not_mover application moveData applicationId userId hmj]
    by_cases hcr : application.status = moveData.status
    · rw [if_neg (fun h => h.1 hcr), if_neg (fun h => h.1 hcr)]
      exact hlt
    · by_cases hi3 : moveData.orderIndex ≤ (db.get ⟨i, hi⟩).orderIndex <;>
        by_cases hj3 : moveData.orderIndex ≤ (db.get ⟨j, hj⟩).orderIndex
      · rw [if_pos ⟨hcr, hiu, hist, hi3, hiid⟩, if_pos ⟨hcr, hju, hjst, hj3, hjid⟩]
        simp only [bumpOrder_orderIndex]
        omega
      · omega
      · rw [if_neg (fun h => hi3 h.2.2.2.1), if_pos ⟨hcr, hju, hjst, hj3, hjid⟩]
        simp only [bumpOrder_orderIndex]
        omega
      · rw [if_neg (fun h => hi3 h.2.2.2.1), if_neg (fun h => hj3 h.2.2.2.1)]
        exact hlt

/-- Witness for C9: the frame theorem applied to the concrete cross-column
scenario; the length of the table is unchanged by the move. -/
theorem move_frame_property_witness :
    (moveApplication 1 mdToInterviewOne 7 dbDest).2.length = dbDest.length :=
  (move_frame_property 1 7 mdToInterviewOne dbDest
      (mkApp 1 7 ApplicationStatus.Applied 0 none none) (by decide)).1

/-! ### C10: the move schema admits exactly four statuses -/

/-- C10 (confirmed): the move endpoint's validation accepts exactly the
four statuses Applied, Interviewing, Offer and Rejected; every validated
request therefore carries a status different from `Cancelled`, and a move
executed with a validated request never stores `Cancelled` on any record
that did not already have it — the fifth persisted enumeration value is
unreachable through move. -/
theorem move_schema_excludes_cancelled :
    (∀ s : String, (parseSharedStatus s).isSome ↔
      (s = "Applied" ∨ s = "Interviewing" ∨ s = "Offer" ∨ s = "Rejected")) ∧
    (∀ req md, jobApplicationMoveSchema req = some md →
      md.status ≠ ApplicationStatus.Cancelled ∧
      ∀ applicationId userId db,
        ∀ a ∈ (moveApplication applicationId md userId db).2,
          a.status = ApplicationStatus.Cancelled →
          ∃ b ∈ db, b.id = a.id ∧ b.status = ApplicationStatus.Cancelled) := by
  constructor
  · intro s
    unfold parseSharedStatus
    split_ifs with h1 h2 h3 h4 <;> simp_all
  · intro req md hparse
    have hst : md.status ≠ ApplicationStatus.Cancelled := by
      unfold jobApplicationMoveSchema at hparse
      split at hparse
      · cases hparse
      · split at hparse
        · rename_i st hps hc
          have hmd := Option.some.inj hparse
          rw [← hmd]
          cases st <;> simp [sharedStatusToDb]
        · cases hparse
    refine ⟨hst, fun applicationId userId db a ha hcanc => ?_⟩
    cases hfind : getApplicationById applicationId userId db with
    | none =>
      rw [moveApplication_of_none hfind] at ha
      exact ⟨a, ha, rfl, hcanc⟩
    | some application =>
      rw [moveApplication_snd hfind] at ha
      obtain ⟨b, hb, rfl⟩ := List.mem_map.mp ha
      refine ⟨b, hb, (moveStep_id application md applicationId userId b).symm ▸ rfl, ?_⟩
      by_cases h1 : b.id = applicationId ∧ b.userId = userId
      · rw [moveStep_mover application md applicationId userId h1] at hcanc
        exact absurd hcanc hst
      · rw [moveStep_not_mover application md applicationId userId h1] at hcanc
        by_cases h2 : application.status ≠ md.status ∧
            shiftCond md applicationId userId b
        · rw [if_pos h2] at hcanc
          exact hcanc
        · rw [if_neg h2] at hcanc
          exact hcanc

/-- Witness for C10: a concrete valid request parses, carries status
`Offer`, and its execution on a one-row table stores no `Cancelled`. -/
theorem move_schema_excludes_cancelled_witness :
    ({ status := ApplicationStatus.Offer, orderIndex := 0,
        interviewStage := none, rejectionStage := none } : MoveData).status ≠
      ApplicationStatus.Cancelled :=
  (move_schema_excludes_cancelled.2
    { status := "Offer", orderIndex := 0,
      interviewStage := none, rejectionStage := none }
    { status := ApplicationStatus.Offer, orderIndex := 0,
      interviewStage := none, rejectionStage := none }
    (by decide)).1
